import Mathlib

/-!
Shallow embedding of the ChaseRP clip collection and validation pipeline
(api/collect.js, api/bulk-scan.js, the Supabase Edge Functions
getClipsTwitch.ts and validateClips.ts), together with proofs about the
Content Validator, the paginated fetcher, the in-run dedup stage, the
resumable bulk-scan controller, the upsert-based persistence, and the
token exchange failure handling.
-/

namespace ChaseRP

/-! ## String primitives

JavaScript string operations used by the pipeline, modelled on the
character list underlying a Lean string. -/

/-- Bool test that the first list is a prefix of the second
(character-by-character, as JS string comparison does). -/
def startsWithL : List Char → List Char → Bool
  | [], _ => true
  | _ :: _, [] => false
  | a :: as, b :: bs => a == b && startsWithL as bs

/-- Bool test that the first list occurs contiguously inside the second;
this is the semantics of JS includes on strings. -/
def occursIn (needle : List Char) : List Char → Bool
  | [] => startsWithL needle []
  | c :: rest => startsWithL needle (c :: rest) || occursIn needle rest

/-- JS s.includes(pat). -/
def strIncludes (s pat : String) : Bool :=
  occursIn pat.data s.data

/-- JS (x || ''): a missing (null / undefined) string becomes the empty
string. -/
def orEmpty : Option String → String
  | none => ""
  | some s => s

/-- JS truthiness of an optional string: null, undefined and the empty
string are falsy. -/
def strTruthy : Option String → Bool
  | none => false
  | some s => !s.isEmpty

/-- JS s.toLowerCase(), character by character (the titles handled by the
pipeline are ASCII, where this agrees with JS). -/
def lowerStr (s : String) : String :=
  ⟨s.data.map Char.toLower⟩

/-! ## Content Validator (isChaseRPContent, collect.js line 130 and
bulk-scan.js line 295) -/

/-- The fixed keyword variant set CHASERP_TERMS from collect.js line 19 and
bulk-scan.js line 182. -/
def CHASERP_TERMS : List String :=
  ["chaserp", "chase rp", "chase roleplay", "chaserpg"]

/-- isChaseRPContent(clipTitle, vodTitle): builds the template string
clipTitle-space-vodTitle (missing titles become empty), lowercases it, and
returns whether any configured term occurs in it as a substring. -/
def isChaseRPContent (clipTitle vodTitle : Option String) : Bool :=
  let combined := lowerStr (orEmpty clipTitle ++ " " ++ orEmpty vodTitle)
  CHASERP_TERMS.any fun term => strIncludes combined term

/-- The validator as the spec sentence words it: some keyword variant occurs
as a substring of the lowercased direct concatenation of the two titles
(no separator). Stated separately so it can be compared against the code. -/
def claimTitleConcatRelevant (clipTitle vodTitle : Option String) : Bool :=
  let combined := lowerStr (orEmpty clipTitle ++ orEmpty vodTitle)
  CHASERP_TERMS.any fun term => strIncludes combined term

/-! ## Bridging lemmas for substring matching -/

theorem startsWithL_iff (n h : List Char) :
    startsWithL n h = true ↔ ∃ q, h = n ++ q := by
  induction n generalizing h with
  | nil =>
    simp [startsWithL]
  | cons a as ih =>
    cases h with
    | nil =>
      simp [startsWithL]
    | cons b bs =>
      simp only [startsWithL, Bool.and_eq_true, beq_iff_eq, ih]
      constructor
      · rintro ⟨rfl, q, rfl⟩
        exact ⟨q, rfl⟩
      · rintro ⟨q, hq⟩
        cases hq
        exact ⟨rfl, q, rfl⟩

theorem occursIn_iff (n h : List Char) :
    occursIn n h = true ↔ ∃ p q, h = p ++ n ++ q := by
  induction h with
  | nil =>
    simp only [occursIn, startsWithL_iff]
    constructor
    · rintro ⟨q, hq⟩
      exact ⟨[], q, by simpa using hq⟩
    · rintro ⟨p, q, hpq⟩
      have hp : p = [] := by
        cases p with
        | nil => rfl
        | cons x xs => simp at hpq
      subst hp
      exact ⟨q, by simpa using hpq⟩
  | cons c rest ih =>
    simp only [occursIn, Bool.or_eq_true, startsWithL_iff, ih]
    constructor
    · rintro (⟨q, hq⟩ | ⟨p, q, hpq⟩)
      · exact ⟨[], q, by simpa using hq⟩
      · exact ⟨c :: p, q, by simp [hpq]⟩
    · rintro ⟨p, q, hpq⟩
      cases p with
      | nil =>
        exact Or.inl ⟨q, by simpa using hpq⟩
      | cons x xs =>
        simp only [List.cons_append, List.cons.injEq] at hpq
        exact Or.inr ⟨xs, q, hpq.2⟩

theorem strIncludes_iff (s pat : String) :
    strIncludes s pat = true ↔ ∃ p q, s.data = p ++ pat.data ++ q := by
  simp [strIncludes, occursIn_iff]

/-- C1 (amended): the Content Validator returns true exactly when some
configured keyword variant occurs as a substring of the lowercased
space-joined combination of the two titles (missing titles treated as
empty); variants may therefore match across the boundary between the two
titles. -/
theorem validator_space_joined_iff (a b : Option String) :
    isChaseRPContent a b = true ↔
      ∃ t ∈ CHASERP_TERMS, ∃ p q,
        (lowerStr (orEmpty a ++ " " ++ orEmpty b)).data = p ++ t.data ++ q := by
  simp only [isChaseRPContent, List.any_eq_true, strIncludes_iff]

/-- C1 (counterexample): with clip title "chase" and VOD title "roleplay"
the code returns true, although no keyword variant occurs in the direct
concatenation of the two titles, and neither title alone contains any
variant. -/
theorem validator_concat_claim_cex :
    isChaseRPContent (some "chase") (some "roleplay") = true ∧
    claimTitleConcatRelevant (some "chase") (some "roleplay") = false ∧
    (CHASERP_TERMS.any fun t => strIncludes "chase" t) = false ∧
    (CHASERP_TERMS.any fun t => strIncludes "roleplay" t) = false := by
  decide

/-- C10: the Content Validator is total on absent inputs: each missing
title is treated as the empty string, and with both titles absent it
returns false. -/
theorem validator_total_on_absent :
    isChaseRPContent none none = false ∧
    ∀ a b : Option String,
      isChaseRPContent a b =
        isChaseRPContent (some (orEmpty a)) (some (orEmpty b)) := by
  refine ⟨by decide, ?_⟩
  intro a b
  cases a <;> cases b <;> rfl

/-! ## Data model

A Twitch clip as returned by the Helix clips endpoint (the fields read by
collect.js / bulk-scan.js / getClipsTwitch.ts). view_count and duration are
modelled as naturals; no claim does arithmetic on them. Fields that JS may
see as undefined are options. -/

structure TwitchClip where
  id : String
  url : String
  embed_url : String
  title : String
  broadcaster_id : String
  broadcaster_name : Option String
  creator_id : String
  creator_name : String
  video_id : Option String
  game_id : Option String
  view_count : Nat
  duration : Nat
  created_at : String
  thumbnail_url : String
deriving DecidableEq

/-- A row of the clips table as built by saveClips (collect.js lines
178-199, bulk-scan.js lines 341-362). -/
structure ClipRecord where
  clip_id : String
  platform : String
  title : String
  thumbnail_url : String
  embed_url : String
  url : String
  view_count : Nat
  duration : Nat
  broadcaster_id : String
  broadcaster_name : Option String
  broadcaster_login : Option String
  profile_image_url : Option String
  creator_id : String
  creator_name : String
  game_id : Option String
  video_id : Option String
  vod_title : Option String
  created_at : String
  is_valid : Bool
  is_chaserp : Bool
deriving DecidableEq

/-- A row of the twitch_clips table as built by the Clips ETL edge
function (getClipsTwitch.ts lines 63-74 and 409-423). -/
structure EtlClipRecord where
  clip_id : String
  streamer_username : String
  clip_title : String
  view_count : Nat
  duration_seconds : Nat
  thumbnail_url : String
  embed_url : String
  serverId : String
  twitch_created_at : String
  is_valid : Bool
deriving DecidableEq

/-! ## saveClips (collect.js lines 168-225, bulk-scan.js lines 331-385) -/

/-- JS (clip.video_id ? vodTitles[clip.video_id] : null): the VOD title
looked up for a clip, null when the clip has no (truthy) video id. The
vodTitles object is modelled as a partial map. -/
def clipVodTitle (vodTitles : String → Option String) (c : TwitchClip) : Option String :=
  match c.video_id with
  | none => none
  | some v => if v.isEmpty then none else vodTitles v

/-- JS (x || null): an empty or missing string degrades to null. -/
def jsOrNull (o : Option String) : Option String :=
  if strTruthy o then o else none

/-- The record literal built for one valid clip inside saveClips. -/
def toClipRecord (vodTitles profiles : String → Option String) (c : TwitchClip) : ClipRecord :=
  { clip_id := c.id
    platform := "twitch"
    title := c.title
    thumbnail_url := c.thumbnail_url
    embed_url := c.embed_url
    url := c.url
    view_count := c.view_count
    duration := c.duration
    broadcaster_id := c.broadcaster_id
    broadcaster_name := c.broadcaster_name
    broadcaster_login := c.broadcaster_name.map lowerStr
    profile_image_url := jsOrNull (profiles c.broadcaster_id)
    creator_id := c.creator_id
    creator_name := c.creator_name
    game_id := c.game_id
    video_id := c.video_id
    vod_title := clipVodTitle vodTitles c
    created_at := c.created_at
    is_valid := true
    is_chaserp := true }

/-- The list of records saveClips hands to the upsert step: the fetched
clips filtered by the Content Validator over clip title and looked-up VOD
title, then mapped to table rows. -/
def saveClipsRecords (clips : List TwitchClip) (vodTitles profiles : String → Option String) :
    List ClipRecord :=
  (clips.filter fun c => isChaseRPContent (some c.title) (clipVodTitle vodTitles c)).map
    (toClipRecord vodTitles profiles)

/-! ## Clips ETL record construction (getClipsTwitch.ts lines 409-423):
every fetched clip is converted and queued for insertion with
is_valid set to true; no title validation is applied there. -/

def etlClipRecord (streamerUsername serverId : String) (c : TwitchClip) : EtlClipRecord :=
  { clip_id := c.id
    streamer_username := lowerStr streamerUsername
    clip_title := c.title
    view_count := c.view_count
    duration_seconds := c.duration
    thumbnail_url := c.thumbnail_url
    embed_url := c.embed_url
    serverId := serverId
    twitch_created_at := c.created_at
    is_valid := true }

def etlClipsToInsert (streamerUsername serverId : String) (clips : List TwitchClip) :
    List EtlClipRecord :=
  clips.map (etlClipRecord streamerUsername serverId)

/-! ## Persistent store and upsert

Modelled from the spec: the persistent store (Supabase) upsert with a
conflict target is not part of this repository; section 4.4 and section 6
of the spec describe it as upsert-with-uniqueness-constraint where a
conflicting row is either updated in place (ignoreDuplicates false) or
left untouched (ignoreDuplicates true), and a non-conflicting row is
appended. The store is a list of rows; key extracts the conflict target. -/

def upsertOne {R K : Type} [DecidableEq K] (ignoreDuplicates : Bool) (key : R → K)
    (store : List R) (r : R) : List R :=
  if store.any fun x => decide (key x = key r) then
    if ignoreDuplicates then store
    else store.map fun x => if key x = key r then r else x
  else store ++ [r]

/-- A batch of rows is upserted row by row (the 100-row batching in the
source only splits the list; per-row conflict semantics are unchanged). -/
def upsertBatch {R K : Type} [DecidableEq K] (ignoreDuplicates : Bool) (key : R → K)
    (store : List R) (batch : List R) : List R :=
  batch.foldl (upsertOne ignoreDuplicates key) store

/-- The conflict target of the clips table: UNIQUE(platform, clip_id). -/
def recordKey (r : ClipRecord) : String × String :=
  (r.platform, r.clip_id)

/-- saveClips persistence: upsert with onConflict platform,clip_id and
ignoreDuplicates false (collect.js lines 205-222). -/
def saveClipsStore (store : List ClipRecord) (clips : List TwitchClip)
    (vodTitles profiles : String → Option String) : List ClipRecord :=
  upsertBatch false recordKey store (saveClipsRecords clips vodTitles profiles)

/-- insertClips persistence: upsert with onConflict clip_id and
ignoreDuplicates true (getClipsTwitch.ts lines 289-317). -/
def insertClipsStore (store : List EtlClipRecord) (records : List EtlClipRecord) :
    List EtlClipRecord :=
  upsertBatch true (fun r => r.clip_id) store records

/-! ## Per-run dedup (collect.js lines 290-303, bulk-scan.js lines
449-467): a set of already-seen clip ids gates insertion into the
accumulated list. -/

def dedupByIdAux (seen : List String) : List TwitchClip → List TwitchClip
  | [] => []
  | c :: rest =>
    if c.id ∈ seen then dedupByIdAux seen rest
    else c :: dedupByIdAux (c.id :: seen) rest

/-- The accumulated allClips list over the whole run, in fetch order. -/
def dedupById (clips : List TwitchClip) : List TwitchClip :=
  dedupByIdAux [] clips

/-! ## Concrete sample data for witnesses and counterexamples -/

/-- A clip whose title carries a keyword variant. -/
def clipChase : TwitchClip :=
  { id := "clip1"
    url := "u1"
    embed_url := "e1"
    title := "Friday ChaseRP stream"
    broadcaster_id := "b1"
    broadcaster_name := some "Streamer"
    creator_id := "cr1"
    creator_name := "Creator"
    video_id := none
    game_id := some "32982"
    view_count := 10
    duration := 30
    created_at := "2024-01-01T00:00:00Z"
    thumbnail_url := "t1" }

/-- A clip the Content Validator rejects. -/
def clipRandom : TwitchClip :=
  { id := "clip2"
    url := "u2"
    embed_url := "e2"
    title := "random gameplay"
    broadcaster_id := "b2"
    broadcaster_name := some "Other"
    creator_id := "cr2"
    creator_name := "Creator2"
    video_id := none
    game_id := some "32982"
    view_count := 5
    duration := 20
    created_at := "2024-01-02T00:00:00Z"
    thumbnail_url := "t2" }

def sampleRecord : ClipRecord :=
  toClipRecord (fun _ => none) (fun _ => none) clipChase

/-! ## C2: persistence vs validation -/

/-- C2 (amended, collect / bulk-scan half): in saveClips, the record built
for a fetched clip is handed to persistence exactly when the Content
Validator accepts the clip title combined with the looked-up VOD title. -/
theorem saveClips_persists_iff_valid (clips : List TwitchClip)
    (vodTitles profiles : String → Option String) (c : TwitchClip) (hc : c ∈ clips) :
    toClipRecord vodTitles profiles c ∈ saveClipsRecords clips vodTitles profiles ↔
      isChaseRPContent (some c.title) (clipVodTitle vodTitles c) = true := by
  constructor
  · intro hmem
    rcases List.mem_map.mp hmem with ⟨c2, hc2, heq⟩
    rcases List.mem_filter.mp hc2 with ⟨_, hval⟩
    have ht : c2.title = c.title := congrArg ClipRecord.title heq
    have hv : c2.video_id = c.video_id := congrArg ClipRecord.video_id heq
    have hvod : clipVodTitle vodTitles c2 = clipVodTitle vodTitles c := by
      simp [clipVodTitle, hv]
    rw [← ht, ← hvod]
    exact hval
  · intro hval
    exact List.mem_map.mpr ⟨c, List.mem_filter.mpr ⟨hc, hval⟩, rfl⟩

theorem saveClips_persists_iff_valid_witness :
    toClipRecord (fun _ => none) (fun _ => none) clipChase ∈
      saveClipsRecords [clipChase] (fun _ => none) (fun _ => none) :=
  (saveClips_persists_iff_valid [clipChase] (fun _ => none) (fun _ => none) clipChase
      (by simp)).mpr (by decide)

/-- C2 (counterexample): in the Clips ETL pipeline, a fetched clip whose
titles the Content Validator rejects is nevertheless written to storage by
insertClips (with is_valid true): the persist step there is not gated by
the validator. -/
theorem persist_without_validation_cex :
    insertClipsStore [] (etlClipsToInsert "Streamer" "chaserp" [clipRandom]) =
      [etlClipRecord "Streamer" "chaserp" clipRandom] ∧
    (etlClipRecord "Streamer" "chaserp" clipRandom).is_valid = true ∧
    isChaseRPContent (some clipRandom.title) none = false := by
  refine ⟨rfl, rfl, by decide⟩

/-! ## C6: per-run dedup keeps the first occurrence of each clip id -/

theorem dedupByIdAux_sublist (seen : List String) (l : List TwitchClip) :
    List.Sublist (dedupByIdAux seen l) l := by
  induction l generalizing seen with
  | nil => simp [dedupByIdAux]
  | cons c rest ih =>
    simp only [dedupByIdAux]
    by_cases h : c.id ∈ seen
    · simp only [if_pos h]
      exact (ih seen).trans (List.sublist_cons_self c rest)
    · simp only [if_neg h]
      exact (ih (c.id :: seen)).cons₂ c

theorem dedupByIdAux_ids (seen : List String) (l : List TwitchClip) :
    ((dedupByIdAux seen l).map TwitchClip.id).Nodup ∧
      ∀ c ∈ dedupByIdAux seen l, c.id ∉ seen := by
  induction l generalizing seen with
  | nil => simp [dedupByIdAux]
  | cons c rest ih =>
    simp only [dedupByIdAux]
    by_cases h : c.id ∈ seen
    · simpa [if_pos h] using ih seen
    · simp only [if_neg h, List.map_cons, List.nodup_cons]
      obtain ⟨ihn, ihs⟩ := ih (c.id :: seen)
      refine ⟨⟨?_, ihn⟩, ?_⟩
      · intro hmem
        rcases List.mem_map.mp hmem with ⟨d, hd, hdid⟩
        exact ihs d hd (by rw [hdid]; exact List.mem_cons_self _ _)
      · intro d hd
        rcases List.mem_cons.mp hd with rfl | hd2
        · exact h
        · intro hds
          exact ihs d hd2 (List.mem_cons_of_mem _ hds)

theorem dedupByIdAux_find (seen : List String) (l : List TwitchClip) (i : String)
    (hi : i ∉ seen) :
    (dedupByIdAux seen l).find? (fun c => c.id == i) =
      l.find? (fun c => c.id == i) := by
  induction l generalizing seen with
  | nil => simp [dedupByIdAux]
  | cons c rest ih =>
    simp only [dedupByIdAux]
    by_cases hb : c.id = i
    · have hseen : c.id ∉ seen := by rw [hb]; exact hi
      simp only [if_neg hseen]
      rw [List.find?_cons_of_pos _ (by simp [hb]), List.find?_cons_of_pos _ (by simp [hb])]
    · have hb2 : ((fun c : TwitchClip => c.id == i) c) = false := by simp [hb]
      by_cases h : c.id ∈ seen
      · rw [if_pos h, List.find?_cons_of_neg _ (by simp [hb]), ih seen hi]
      · rw [if_neg h, List.find?_cons_of_neg _ (by simp [hb]),
          List.find?_cons_of_neg _ (by simp [hb])]
        refine ih (c.id :: seen) ?_
        intro hmem
        rcases List.mem_cons.mp hmem with hic | hic
        · exact hb hic.symm
        · exact hi hic

/-- C6: within a run, the accumulated list contains exactly one clip per
distinct external clip id; it is a subsequence of the fetched sequence,
and for every id the clip kept is the first occurrence in fetch order. -/
theorem dedup_first_occurrence_per_id (clips : List TwitchClip) :
    ((dedupById clips).map TwitchClip.id).Nodup ∧
    List.Sublist (dedupById clips) clips ∧
    ∀ i : String, (dedupById clips).find? (fun c => c.id == i) =
      clips.find? (fun c => c.id == i) := by
  refine ⟨(dedupByIdAux_ids [] clips).1, dedupByIdAux_sublist [] clips, ?_⟩
  intro i
  exact dedupByIdAux_find [] clips i (by simp)

/-! ## C7: idempotence of persistence on the conflict key -/

theorem map_fixed_on {α : Type} (f : α → α) (l : List α) (h : ∀ a ∈ l, f a = a) :
    l.map f = l := by
  induction l with
  | nil => rfl
  | cons a t ih =>
    simp only [List.map_cons]
    rw [h a (List.mem_cons_self a t), ih fun x hx => h x (List.mem_cons_of_mem a hx)]

theorem countP_key_eq_one {R K : Type} [DecidableEq K] (key : R → K) (l : List R) (k : K)
    (hn : (l.map key).Nodup) (hex : ∃ x ∈ l, key x = k) :
    l.countP (fun x => decide (key x = k)) = 1 := by
  induction l with
  | nil => simp at hex
  | cons a t ih =>
    simp only [List.map_cons, List.nodup_cons] at hn
    obtain ⟨hna, hnt⟩ := hn
    by_cases ha : key a = k
    · rw [List.countP_cons_of_pos _ _ (by simpa using ha)]
      have h0 : t.countP (fun x => decide (key x = k)) = 0 := by
        rw [List.countP_eq_zero]
        intro x hx
        simp only [decide_eq_true_eq]
        intro hxk
        refine hna ?_
        rw [ha, ← hxk]
        exact List.mem_map_of_mem key hx
      omega
    · rw [List.countP_cons_of_neg _ _ (by simpa using ha)]
      refine ih hnt ?_
      rcases hex with ⟨x, hx, hxk⟩
      rcases List.mem_cons.mp hx with rfl | hx2
      · exact absurd hxk ha
      · exact ⟨x, hx2, hxk⟩

/-- C7: upserting the same record twice (same platform and clip id) never
leaves two stored rows: on any store satisfying the uniqueness constraint,
after the first persist exactly one row carries the record key, and the
second persist call leaves the store unchanged, in both conflict modes
(ignore-duplicates true or false). -/
theorem upsert_idempotent (mode : Bool) (store : List ClipRecord) (r : ClipRecord)
    (hn : (store.map recordKey).Nodup) :
    upsertBatch mode recordKey (upsertBatch mode recordKey store [r]) [r] =
      upsertBatch mode recordKey store [r] ∧
    (upsertBatch mode recordKey store [r]).countP
      (fun x => decide (recordKey x = recordKey r)) = 1 := by
  simp only [upsertBatch, List.foldl_cons, List.foldl_nil]
  by_cases hpres : (store.any fun x => decide (recordKey x = recordKey r)) = true
  · have hex : ∃ x ∈ store, recordKey x = recordKey r := by
      simpa using hpres
    cases mode with
    | true =>
      have hs1 : upsertOne true recordKey store r = store := by
        simp [upsertOne, hpres]
      rw [hs1]
      exact ⟨hs1, countP_key_eq_one recordKey store (recordKey r) hn hex⟩
    | false =>
      have hs1 : upsertOne false recordKey store r =
          store.map fun x => if recordKey x = recordKey r then r else x := by
        simp only [upsertOne, if_pos hpres]
        rfl
      rw [hs1]
      constructor
      · have hany2 : ((store.map fun x => if recordKey x = recordKey r then r else x).any
            fun x => decide (recordKey x = recordKey r)) = true := by
          rcases hex with ⟨x0, hx0, hk0⟩
          refine List.any_eq_true.mpr ⟨r, ?_, by simp⟩
          exact List.mem_map.mpr ⟨x0, hx0, by simp [hk0]⟩
        have hff : ∀ y ∈ store.map fun x => if recordKey x = recordKey r then r else x,
            (if recordKey y = recordKey r then r else y) = y := by
          intro y hy
          rcases List.mem_map.mp hy with ⟨x, _, hxy⟩
          by_cases hxk : recordKey x = recordKey r
          · rw [← hxy]
            simp [hxk]
          · rw [← hxy]
            simp [hxk]
        simp only [upsertOne, if_pos hany2, if_neg (by simp : ¬false = true)]
        exact map_fixed_on _ _ hff
      · rw [List.countP_map]
        have hfun : ((fun x => decide (recordKey x = recordKey r)) ∘
            fun x => if recordKey x = recordKey r then r else x) =
            fun x => decide (recordKey x = recordKey r) := by
          funext x
          by_cases hxk : recordKey x = recordKey r
          · simp [hxk]
          · simp [hxk]
        rw [hfun]
        exact countP_key_eq_one recordKey store (recordKey r) hn hex
  · have hnone : ∀ x ∈ store, recordKey x ≠ recordKey r := by
      intro x hx hk
      refine hpres (List.any_eq_true.mpr ⟨x, hx, ?_⟩)
      simp [hk]
    have hs1 : upsertOne mode recordKey store r = store ++ [r] := by
      simp only [upsertOne, if_neg hpres]
    rw [hs1]
    have hrmem : r ∈ store ++ [r] := List.mem_append_right store (List.mem_singleton_self r)
    have hany2 : ((store ++ [r]).any fun x => decide (recordKey x = recordKey r)) = true := by
      refine List.any_eq_true.mpr ⟨r, hrmem, ?_⟩
      simp
    constructor
    · cases mode with
      | true => simp [upsertOne, hany2]
      | false =>
        simp only [upsertOne, if_pos hany2, if_neg (by simp : ¬false = true)]
        refine map_fixed_on _ _ ?_
        intro y hy
        rcases List.mem_append.mp hy with hy2 | hy2
        · simp [hnone y hy2]
        · rcases List.mem_singleton.mp hy2 with rfl
          simp
    · rw [List.countP_append]
      have h0 : store.countP (fun x => decide (recordKey x = recordKey r)) = 0 := by
        rw [List.countP_eq_zero]
        intro x hx
        simp [hnone x hx]
      rw [h0]
      simp

theorem upsert_idempotent_witness :
    upsertBatch true recordKey (upsertBatch true recordKey [] [sampleRecord]) [sampleRecord] =
      upsertBatch true recordKey [] [sampleRecord] ∧
    (upsertBatch true recordKey [] [sampleRecord]).countP
      (fun x => decide (recordKey x = recordKey sampleRecord)) = 1 :=
  upsert_idempotent true [] sampleRecord (by simp)

/-! ## Paginated fetcher (fetchBroadcasterClips, bulk-scan.js lines
209-256; the collect.js variant at lines 47-89 is the same loop with
maxPages fixed to 3 and no 429 retry branch)

The upstream is modelled as the finite sequence of HTTP responses the
loop observes, consumed one per request. The loop state carries the page
counter, the cursor used for the next request, the accumulated clips, the
log of cursors sent with each request, and the number of successful page
fetches. -/

def GTA_V_GAME_ID : String := "32982"

structure ClipPage where
  items : List TwitchClip
  cursor : Option String
deriving DecidableEq

inductive FetchResp where
  | ok (page : ClipPage)
  | rateLimited
  | failed (status : Nat)
deriving DecidableEq

structure FetchResult where
  clips : List TwitchClip
  requests : List (Option String)
  successPages : Nat
deriving DecidableEq

/-- One run of the bulk-scan fetch loop. A request is only issued while
the page counter is below maxPages; a 429 leaves the page counter and the
cursor unchanged (the JS page-- plus loop increment) and retries; any
other non-2xx status stops the fetch for this entity; a success keeps the
GTA V clips of the page, and stops when the returned cursor is falsy or
the page was short. -/
def fetchGo (maxPages : Nat) :
    Nat → Option String → List TwitchClip → List (Option String) → Nat →
      List FetchResp → FetchResult
  | _, _, acc, reqs, okCount, [] => ⟨acc, reqs, okCount⟩
  | page, cursor, acc, reqs, okCount, r :: rest =>
    if maxPages ≤ page then ⟨acc, reqs, okCount⟩
    else
      match r with
      | .rateLimited => fetchGo maxPages page cursor acc (reqs ++ [cursor]) okCount rest
      | .failed _ => ⟨acc, reqs ++ [cursor], okCount⟩
      | .ok pg =>
        let acc2 := acc ++ pg.items.filter fun c => c.game_id == some GTA_V_GAME_ID
        if strTruthy pg.cursor = false ∨ pg.items.length < 100 then
          ⟨acc2, reqs ++ [cursor], okCount + 1⟩
        else
          fetchGo maxPages (page + 1) pg.cursor acc2 (reqs ++ [cursor]) (okCount + 1) rest

/-- fetchBroadcasterClips entry state: page 0, no cursor. -/
def fetchBroadcasterClips (maxPages : Nat) (resps : List FetchResp) : FetchResult :=
  fetchGo maxPages 0 none [] [] 0 resps

/-- A successful full page whose cursor is truthy: the upstream keeps
promising more data. -/
def okFull : FetchResp → Bool
  | .ok pg => strTruthy pg.cursor && decide (pg.items.length = 100)
  | _ => false

/-- Number of successful full-page responses in a response sequence. -/
def countOkResps (resps : List FetchResp) : Nat :=
  resps.countP okFull

theorem fetchGo_all_ok (maxPages : Nat) (resps : List FetchResp)
    (hok : ∀ r ∈ resps, okFull r = true) :
    ∀ (page : Nat) (cursor : Option String) (acc : List TwitchClip)
      (reqs : List (Option String)) (okCount : Nat),
      (fetchGo maxPages page cursor acc reqs okCount resps).successPages =
          okCount + min (maxPages - page) resps.length ∧
        (fetchGo maxPages page cursor acc reqs okCount resps).requests.length =
          reqs.length + min (maxPages - page) resps.length := by
  induction resps with
  | nil =>
    intro page cursor acc reqs okCount
    simp [fetchGo]
  | cons r rest ih =>
    intro page cursor acc reqs okCount
    have hr : okFull r = true := hok r (List.mem_cons_self r rest)
    have hrest : ∀ r2 ∈ rest, okFull r2 = true :=
      fun r2 h2 => hok r2 (List.mem_cons_of_mem r h2)
    by_cases hpage : maxPages ≤ page
    · have hm : maxPages - page = 0 := Nat.sub_eq_zero_of_le hpage
      simp [fetchGo, if_pos hpage, hm]
    · cases r with
      | rateLimited => simp [okFull] at hr
      | failed s => simp [okFull] at hr
      | ok pg =>
        simp only [okFull, Bool.and_eq_true, decide_eq_true_eq] at hr
        obtain ⟨hcur, hlen⟩ := hr
        have hnotshort : ¬(strTruthy pg.cursor = false ∨ pg.items.length < 100) := by
          rw [hcur, hlen]
          simp
        simp only [fetchGo, if_neg hpage, if_neg hnotshort]
        obtain ⟨ihs, ihr⟩ := ih hrest (page + 1) pg.cursor
          (acc ++ pg.items.filter fun c => c.game_id == some GTA_V_GAME_ID)
          (reqs ++ [cursor]) (okCount + 1)
        rw [ihs, ihr]
        simp only [List.length_append, List.length_cons, List.length_nil]
        omega

/-- C4: when every upstream response is a successful full page with a
non-empty cursor, the fetch loop still issues at most maxPages requests
(exactly min of maxPages and the number of available responses), so it
terminates within the page budget. -/
theorem fetchClips_page_budget (maxPages : Nat) (resps : List FetchResp)
    (hok : ∀ r ∈ resps, okFull r = true) :
    (fetchBroadcasterClips maxPages resps).requests.length =
        min maxPages resps.length ∧
      (fetchBroadcasterClips maxPages resps).requests.length ≤ maxPages ∧
      (fetchBroadcasterClips maxPages resps).successPages ≤ maxPages := by
  obtain ⟨hs, hr⟩ := fetchGo_all_ok maxPages resps hok 0 none [] [] 0
  unfold fetchBroadcasterClips
  rw [hs, hr, show ([] : List (Option String)).length = 0 from rfl]
  omega

theorem fetchClips_page_budget_witness :
    (fetchBroadcasterClips 3
        [FetchResp.ok ⟨List.replicate 100 clipChase, some "cur1"⟩,
         FetchResp.ok ⟨List.replicate 100 clipChase, some "cur2"⟩]).requests.length =
      min 3 2 := by
  have h := fetchClips_page_budget 3
    [FetchResp.ok ⟨List.replicate 100 clipChase, some "cur1"⟩,
     FetchResp.ok ⟨List.replicate 100 clipChase, some "cur2"⟩]
    (by decide)
  exact h.1

/-! ## C5: a 429 retries the same page without consuming the page budget -/

theorem fetchGo_mixed (maxPages : Nat) (resps : List FetchResp)
    (hmix : ∀ r ∈ resps, r = FetchResp.rateLimited ∨ okFull r = true) :
    ∀ (page : Nat) (cursor : Option String) (acc : List TwitchClip)
      (reqs : List (Option String)) (okCount : Nat),
      maxPages - page ≤ countOkResps resps →
      (fetchGo maxPages page cursor acc reqs okCount resps).successPages =
        okCount + (maxPages - page) := by
  induction resps with
  | nil =>
    intro page cursor acc reqs okCount hcnt
    simp only [countOkResps, List.countP_nil, Nat.le_zero] at hcnt
    simp [fetchGo, hcnt]
  | cons r rest ih =>
    intro page cursor acc reqs okCount hcnt
    have hr : r = FetchResp.rateLimited ∨ okFull r = true :=
      hmix r (List.mem_cons_self r rest)
    have hrest : ∀ r2 ∈ rest, r2 = FetchResp.rateLimited ∨ okFull r2 = true :=
      fun r2 h2 => hmix r2 (List.mem_cons_of_mem r h2)
    by_cases hpage : maxPages ≤ page
    · have hm : maxPages - page = 0 := Nat.sub_eq_zero_of_le hpage
      cases r <;> simp [fetchGo, if_pos hpage, hm]
    · rcases hr with rfl | hfull
      · have hcnt2 : countOkResps (FetchResp.rateLimited :: rest) = countOkResps rest := by
          simp [countOkResps, List.countP_cons, okFull]
        rw [hcnt2] at hcnt
        simp only [fetchGo, if_neg hpage]
        exact ih hrest page cursor acc (reqs ++ [cursor]) okCount hcnt
      · cases r with
        | rateLimited => simp [okFull] at hfull
        | failed s => simp [okFull] at hfull
        | ok pg =>
          simp only [okFull, Bool.and_eq_true, decide_eq_true_eq] at hfull
          obtain ⟨hcur, hlen⟩ := hfull
          have hnotshort : ¬(strTruthy pg.cursor = false ∨ pg.items.length < 100) := by
            rw [hcur, hlen]
            simp
          have hcnt2 : countOkResps (FetchResp.ok pg :: rest) = countOkResps rest + 1 := by
            simp [countOkResps, List.countP_cons, okFull, hcur, hlen]
          rw [hcnt2] at hcnt
          simp only [fetchGo, if_neg hpage, if_neg hnotshort]
          rw [ih hrest (page + 1) pg.cursor
            (acc ++ pg.items.filter fun c => c.game_id == some GTA_V_GAME_ID)
            (reqs ++ [cursor]) (okCount + 1) (by omega)]
          omega

/-- C5: a rate-limit response is retried without advancing: the loop
consumes the 429, logs a request with the current cursor, and continues
with the same page counter, the same cursor and the same success count
(first conjunct); and when the upstream interleaves any number of 429s
with successful full pages, the number of successful pages fetched still
reaches maxPages whenever at least maxPages successes are available
(second conjunct). -/
theorem fetchClips_rate_limit_retry :
    (∀ (maxPages page : Nat) (cursor : Option String) (acc : List TwitchClip)
      (reqs : List (Option String)) (okCount : Nat) (rest : List FetchResp),
      page < maxPages →
      fetchGo maxPages page cursor acc reqs okCount (FetchResp.rateLimited :: rest) =
        fetchGo maxPages page cursor acc (reqs ++ [cursor]) okCount rest) ∧
    (∀ (maxPages : Nat) (resps : List FetchResp),
      (∀ r ∈ resps, r = FetchResp.rateLimited ∨ okFull r = true) →
      maxPages ≤ countOkResps resps →
      (fetchBroadcasterClips maxPages resps).successPages = maxPages) := by
  constructor
  · intro maxPages page cursor acc reqs okCount rest hpage
    simp only [fetchGo, if_neg (Nat.not_le_of_lt hpage)]
  · intro maxPages resps hmix hcnt
    have h := fetchGo_mixed maxPages resps hmix 0 none [] [] 0 (by simpa using hcnt)
    simpa using h

theorem fetchClips_rate_limit_retry_witness :
    (fetchGo 3 1 (some "cur0") [] [] 1
        [FetchResp.rateLimited, FetchResp.ok ⟨List.replicate 100 clipChase, some "cur1"⟩] =
      fetchGo 3 1 (some "cur0") [] [some "cur0"] 1
        [FetchResp.ok ⟨List.replicate 100 clipChase, some "cur1"⟩]) ∧
    (fetchBroadcasterClips 2
        [FetchResp.rateLimited,
         FetchResp.ok ⟨List.replicate 100 clipChase, some "cur1"⟩,
         FetchResp.rateLimited,
         FetchResp.ok ⟨List.replicate 100 clipChase, some "cur2"⟩]).successPages = 2 := by
  constructor
  · exact fetchClips_rate_limit_retry.1 3 1 (some "cur0") [] [] 1
      [FetchResp.ok ⟨List.replicate 100 clipChase, some "cur1"⟩] (by decide)
  · exact fetchClips_rate_limit_retry.2 2
      [FetchResp.rateLimited,
       FetchResp.ok ⟨List.replicate 100 clipChase, some "cur1"⟩,
       FetchResp.rateLimited,
       FetchResp.ok ⟨List.replicate 100 clipChase, some "cur2"⟩]
      (by decide) (by decide)

/-! ## Resumable bulk-scan controller (bulk-scan.js lines 387-550)

The active streamer population, ordered by twitch_id, is the list pop.
One call loads the page range(offset, offset + pageSize - 1), i.e. drop
offset then take pageSize; an empty page reports completion with no work;
otherwise the page is processed, nextOffset is offset plus the number of
streamers in the page, and completed is nextOffset greater than or equal
to the total active count. -/

structure BatchResult (α : Type) where
  processed : List α
  nextOffset : Nat
  completed : Bool
deriving DecidableEq

def runBatch {α : Type} (pop : List α) (pageSize offset : Nat) : BatchResult α :=
  let page := (pop.drop offset).take pageSize
  if page.isEmpty then
    { processed := [], nextOffset := offset, completed := true }
  else
    { processed := page
      nextOffset := offset + page.length
      completed := decide (pop.length ≤ offset + page.length) }

/-- The caller protocol: invoke runBatch, stop when it reports completed,
else call again at the returned next offset; the fuel bounds the number of
calls and none when it runs out. Returns the concatenation of the
processed pages. -/
def runToCompletion {α : Type} (pop : List α) (pageSize : Nat) :
    Nat → Nat → Option (List α)
  | 0, _ => none
  | fuel + 1, offset =>
    let b := runBatch pop pageSize offset
    if b.completed then some b.processed
    else (runToCompletion pop pageSize fuel b.nextOffset).map (b.processed ++ ·)

theorem runToCompletion_drop {α : Type} (pop : List α) (pageSize : Nat)
    (hps : 0 < pageSize) :
    ∀ (fuel offset : Nat), pop.length - offset < fuel →
      runToCompletion pop pageSize fuel offset = some (pop.drop offset) := by
  intro fuel
  induction fuel with
  | zero =>
    intro offset h
    omega
  | succ f ih =>
    intro offset hfuel
    have hle1 : ((pop.drop offset).take pageSize).length ≤ pageSize := by
      rw [List.length_take, List.length_drop]
      exact Nat.min_le_left _ _
    have hle2 : ((pop.drop offset).take pageSize).length ≤ pop.length - offset := by
      rw [List.length_take, List.length_drop]
      exact Nat.min_le_right _ _
    have hcases : ((pop.drop offset).take pageSize).length = pageSize ∨
        ((pop.drop offset).take pageSize).length = pop.length - offset := by
      rw [List.length_take, List.length_drop]
      rcases Nat.le_total pageSize (pop.length - offset) with h | h
      · exact Or.inl (Nat.min_eq_left h)
      · exact Or.inr (Nat.min_eq_right h)
    by_cases hempty : (pop.drop offset).take pageSize = []
    · have hd : pop.drop offset = [] := by
        rcases List.take_eq_nil_iff.mp hempty with h | h
        · omega
        · exact h
      have hb : runBatch pop pageSize offset =
          { processed := [], nextOffset := offset, completed := true } := by
        simp [runBatch, hempty]
      simp only [runToCompletion, hb]
      simp [hd]
    · have hie : ((pop.drop offset).take pageSize).isEmpty = false := by
        simp [hempty]
      have hpos : 0 < ((pop.drop offset).take pageSize).length :=
        List.length_pos.mpr hempty
      have hb : runBatch pop pageSize offset =
          { processed := (pop.drop offset).take pageSize
            nextOffset := offset + ((pop.drop offset).take pageSize).length
            completed :=
              decide (pop.length ≤ offset + ((pop.drop offset).take pageSize).length) } := by
        simp [runBatch, hie]
      by_cases hdone :
          pop.length ≤ offset + ((pop.drop offset).take pageSize).length
      · have hfull : (pop.drop offset).take pageSize = pop.drop offset := by
          refine List.take_of_length_le ?_
          rw [List.length_drop]
          omega
        simp only [runToCompletion, hb]
        rw [if_pos (decide_eq_true hdone), hfull]
      · have hps2 : ((pop.drop offset).take pageSize).length = pageSize := by
          rcases hcases with h | h
          · exact h
          · omega
        simp only [runToCompletion, hb]
        rw [if_neg (by simpa using hdone), hps2]
        rw [ih (offset + pageSize) (by omega)]
        simp only [Option.map_some']
        have hdd : pop.drop (offset + pageSize) = (pop.drop offset).drop pageSize := by
          rw [List.drop_drop, Nat.add_comm]
        rw [hdd, List.take_append_drop]

/-- C3: with any active population and any positive page size, starting
at offset 0 and re-invoking runBatch at each returned next offset reaches
completed within population-size-plus-one calls, and the concatenation of
the processed pages is exactly the population: every active entity once,
no gaps and no double-counts at page boundaries. -/
theorem runBatch_resumable_covers_population {α : Type} (pop : List α) (pageSize : Nat)
    (hps : 0 < pageSize) :
    runToCompletion pop pageSize (pop.length + 1) 0 = some pop := by
  have h := runToCompletion_drop pop pageSize hps (pop.length + 1) 0 (by omega)
  simpa using h

theorem runBatch_resumable_witness :
    runToCompletion ["A", "B", "C"] 2 4 0 = some ["A", "B", "C"] :=
  runBatch_resumable_covers_population ["A", "B", "C"] 2 (by decide)

/-- C8 (counterexample): with population A, B, C, pageSize 2 and offset 2
the loaded page is the non-empty [C], and the returned next offset is 3,
the offset plus the page length, not offset + pageSize = 4. -/
theorem runBatch_next_offset_cex :
    (runBatch ["A", "B", "C"] 2 2).processed ≠ [] ∧
    (runBatch ["A", "B", "C"] 2 2).nextOffset = 3 ∧
    (runBatch ["A", "B", "C"] 2 2).nextOffset ≠ 2 + 2 := by
  decide

/-- C8 (amended): on a non-empty loaded page, runBatch processes that
page, returns next offset equal to offset plus the number of loaded
entities (which is pageSize whenever a full page was available), with
completed true exactly when that next offset reaches the total active
count; on an empty page it reports completed with nothing processed. -/
theorem runBatch_result_spec {α : Type} (pop : List α) (pageSize offset : Nat) :
    ((pop.drop offset).take pageSize ≠ [] →
      (runBatch pop pageSize offset).processed = (pop.drop offset).take pageSize ∧
      (runBatch pop pageSize offset).nextOffset =
        offset + ((pop.drop offset).take pageSize).length ∧
      ((runBatch pop pageSize offset).completed = true ↔
        pop.length ≤ (runBatch pop pageSize offset).nextOffset)) ∧
    ((pop.drop offset).take pageSize = [] →
      (runBatch pop pageSize offset).completed = true ∧
      (runBatch pop pageSize offset).processed = []) := by
  constructor
  · intro hne
    have hie : ((pop.drop offset).take pageSize).isEmpty = false := by
      simp [hne]
    simp [runBatch, hie]
  · intro he
    have hie : ((pop.drop offset).take pageSize).isEmpty = true := by
      simp [he]
    simp [runBatch, hie]

theorem runBatch_result_spec_witness :
    (runBatch ["A", "B", "C"] 2 0).nextOffset =
        0 + (((["A", "B", "C"] : List String).drop 0).take 2).length ∧
    ((runBatch ["A", "B", "C"] 2 0).completed = true ↔
      (["A", "B", "C"] : List String).length ≤ (runBatch ["A", "B", "C"] 2 0).nextOffset) := by
  have h := (runBatch_result_spec ["A", "B", "C"] 2 0).1 (by decide)
  exact ⟨h.2.1, h.2.2⟩

/-! ## Token exchange (getTwitchToken) -/

structure TokenHttpResp where
  ok : Bool
  access_token : Option String
deriving DecidableEq

/-- getTwitchToken of collect.js lines 25-44 (cold cache): a thrown fetch
error propagates, there being no try/catch; otherwise the response body
is parsed and data.access_token returned as-is. The HTTP status is never
checked, so a non-2xx response yields an undefined token, not an error. -/
def getTwitchTokenCollect (fetchResult : Except Unit TokenHttpResp) :
    Except Unit (Option String) :=
  match fetchResult with
  | .error e => .error e
  | .ok resp => .ok resp.access_token

/-- getTwitchToken of getClipsTwitch.ts lines 88-111: throws when either
credential is missing (falsy), rethrows a network error, throws on a
non-2xx response, and only then returns the access token. -/
def getTwitchTokenETL (clientId clientSecret : Option String)
    (fetchResult : Except Unit TokenHttpResp) : Except String (Option String) :=
  if strTruthy clientId = false ∨ strTruthy clientSecret = false then
    .error "Twitch credentials not configured"
  else
    match fetchResult with
    | .error _ => .error "network error"
    | .ok resp =>
      if resp.ok = false then .error "Failed to get Twitch token"
      else .ok resp.access_token

/-- HTTP status of the Clips ETL serve handler (getClipsTwitch.ts lines
322-454) as a function of the token step: a thrown token error is caught
by the outer try and surfaced as a 500 failure response; otherwise the run
continues, and every later error class is absorbed internally, ending in a
200 response. -/
def serveClipsETL (clientId clientSecret : Option String)
    (fetchResult : Except Unit TokenHttpResp) : Nat :=
  match getTwitchTokenETL clientId clientSecret fetchResult with
  | .error _ => 500
  | .ok _ => 200

/-- Status and success flag of the collect handler (collect.js lines
228-369) as a function of the token step: only a thrown error reaches the
outer catch (500, success false); a token exchange that merely returned a
non-2xx body leaves the handler on its success path (200, success true),
per-streamer and per-batch failures being absorbed internally. -/
def collectHandler (fetchResult : Except Unit TokenHttpResp) : Nat × Bool :=
  match getTwitchTokenCollect fetchResult with
  | .error _ => (500, false)
  | .ok _ => (200, true)

/-- C9 (counterexample): in collect.js, a non-2xx token endpoint response
(whose error body carries no access_token) does not abort the run: the
token function returns an undefined credential and the handler surfaces a
success response. -/
theorem collect_token_non2xx_continues_cex :
    getTwitchTokenCollect (Except.ok ⟨false, none⟩) = Except.ok none ∧
    collectHandler (Except.ok ⟨false, none⟩) = (200, true) :=
  ⟨rfl, rfl⟩

/-- C9 (amended): in the Clips ETL variant, every credential exchange
failure mode (missing configuration, network error, non-2xx token
response) makes getTwitchToken propagate an error and the run surface a
500 failure response; in the collect variant, a thrown network error is
likewise fatal (500, success false), but a non-2xx token response is not
checked and the run continues. -/
theorem token_failure_propagation (clientId clientSecret : Option String)
    (fetchResult : Except Unit TokenHttpResp) :
    ((strTruthy clientId = false ∨ strTruthy clientSecret = false ∨
        fetchResult = Except.error () ∨
        (∃ resp, fetchResult = Except.ok resp ∧ resp.ok = false)) →
      (∃ msg, getTwitchTokenETL clientId clientSecret fetchResult = Except.error msg) ∧
      serveClipsETL clientId clientSecret fetchResult = 500) ∧
    (fetchResult = Except.error () →
      getTwitchTokenCollect fetchResult = Except.error () ∧
      collectHandler fetchResult = (500, false)) := by
  constructor
  · intro hfail
    have herr : ∃ msg,
        getTwitchTokenETL clientId clientSecret fetchResult = Except.error msg := by
      by_cases hcid : strTruthy clientId = false ∨ strTruthy clientSecret = false
      · refine ⟨"Twitch credentials not configured", ?_⟩
        simp only [getTwitchTokenETL, if_pos hcid]
      · rcases hfail with h | h | h | ⟨resp, hfr, hno⟩
        · exact absurd (Or.inl h) hcid
        · exact absurd (Or.inr h) hcid
        · subst h
          refine ⟨"network error", ?_⟩
          simp only [getTwitchTokenETL, if_neg hcid]
        · subst hfr
          refine ⟨"Failed to get Twitch token", ?_⟩
          simp only [getTwitchTokenETL, if_neg hcid]
          simp [hno]
    obtain ⟨msg, hmsg⟩ := herr
    refine ⟨⟨msg, hmsg⟩, ?_⟩
    simp [serveClipsETL, hmsg]
  · intro hnet
    subst hnet
    exact ⟨rfl, rfl⟩

theorem token_failure_propagation_witness :
    serveClipsETL none (some "secret") (Except.ok ⟨true, some "tok"⟩) = 500 ∧
    collectHandler (Except.error ()) = (500, false) := by
  constructor
  · exact ((token_failure_propagation none (some "secret")
      (Except.ok ⟨true, some "tok"⟩)).1 (Or.inl rfl)).2
  · exact ((token_failure_propagation none (some "secret") (Except.error ())).2 rfl).2

end ChaseRP
